/-
Shallow embedding of `repos/system_upgrade/el7toel8/libraries/config/version.py`
(the version-matching utility of leapp-repository) and proofs of the
specification claims about it.

Python strings are modelled as Lean `String`; Python lists of strings as
`List String`; Python runtime values (needed for the dynamic type checks in
`matches_version`) as the inductive `PyVal`.  Raised exceptions are modelled
with `Except PyErr`: Python `TypeError` ↦ `PyErr.typeError`, `ValueError` ↦
`PyErr.valueError`, `KeyError` ↦ `PyErr.keyError`, and
`StopActorExecutionError` ↦ `PyErr.stopActorExecutionError`.
-/
import Mathlib

namespace VersionPy

/-- Exception kinds raised by the module (see module header for the mapping). -/
inductive PyErr where
  | typeError
  | valueError
  | keyError
  | stopActorExecutionError
  deriving DecidableEq, Repr

/-- A Python runtime value, as far as the module's dynamic type checks
(`isinstance(…, (list, tuple))`, `isinstance(…, six.string_types)`) discriminate. -/
inductive PyVal where
  | str (s : String)
  | int (n : Int)
  | list (xs : List PyVal)
  | tuple (xs : List PyVal)
  | none
  deriving Repr

/-- Python's `str.split('.')`: split at every `'.'`, keeping empty pieces
(`"".split('.') == ['']`).  Defined on the character list. -/
def splitOnDot : List Char → List (List Char)
  | [] => [[]]
  | c :: cs =>
    match splitOnDot cs with
    | [] => [[c]]
    | t :: ts => if c = '.' then [] :: t :: ts else (c :: t) :: ts

/-- Python's `str.split('.')` on a `String`. -/
def pySplitDot (s : String) : List String :=
  (splitOnDot s.data).map (fun l => ⟨l⟩)

/-- Python's whitespace `str.split()` (no argument): split on runs of
whitespace, discarding empty pieces. -/
def pySplitWs (s : String) : List String :=
  ((List.splitOnP (fun c => c.isWhitespace) s.data).filter (fun l => !l.isEmpty)).map
    (fun l => ⟨l⟩)

/-- Python's `str.isdigit()` restricted to ASCII: non-empty and all digits. -/
def pyIsDigit (s : String) : Bool :=
  !s.data.isEmpty && s.data.all Char.isDigit

/-- Python's `int(…)` on a string of ASCII digits (the only shape the module
feeds it after validation): the usual left fold. -/
def parseNat (s : String) : Nat :=
  s.data.foldl (fun a c => a * 10 + (c.toNat - 48)) 0

/-- Lexicographic `<` on `(major, minor)` pairs, i.e. Python's tuple `<`. -/
def tupLt (x y : Nat × Nat) : Bool :=
  x.1 < y.1 || (x.1 == y.1 && x.2 < y.2)

/-- Python tuple `<=`. -/
def tupLe (x y : Nat × Nat) : Bool := tupLt x y || x == y

/-- Python tuple `>`. -/
def tupGt (x y : Nat × Nat) : Bool := tupLt y x

/-- Python tuple `>=`. -/
def tupGe (x y : Nat × Nat) : Bool := tupLe y x

/-- `OP_MAP`: the comparator table `{'>': operator.gt, '>=': operator.ge,
'<': operator.lt, '<=': operator.le}`; `none` models a missing key. -/
def OP_MAP (op : String) : Option ((Nat × Nat) → (Nat × Nat) → Bool) :=
  if op = ">" then some tupGt
  else if op = ">=" then some tupGe
  else if op = "<" then some tupLt
  else if op = "<=" then some tupLe
  else Option.none

/-- `SUPPORTED_VERSION = {'rhel': ['7.6']}` as an association list. -/
def SUPPORTED_VERSION : List (String × List String) := [("rhel", ["7.6"])]

/-- `_version_to_tuple`: `major, minor = version.split('.')` (a `ValueError`
when the split is not exactly two pieces), then `(int(major), int(minor))`. -/
def version_to_tuple (s : String) : Except PyErr (Nat × Nat) :=
  match pySplitDot s with
  | [a, b] => .ok (parseNat a, parseNat b)
  | _ => .error .valueError

/-- Total variant of `_version_to_tuple` for use in specification statements;
agrees with it on every well-formed version string. -/
def vtup (s : String) : Nat × Nat :=
  match pySplitDot s with
  | [a, b] => (parseNat a, parseNat b)
  | _ => (0, 0)

/-- The per-string format check of `_validate_versions`: splits into exactly
two dot-separated pieces, each all digits. -/
def wellFormedVersion (s : String) : Bool :=
  (pySplitDot s).length == 2 && (pySplitDot s).all pyIsDigit

/-- `_validate_versions`: raise `ValueError` unless every element is in the
form `<integer>.<integer>`. -/
def validate_versions (versions : List String) : Except PyErr Unit :=
  if versions.all wellFormedVersion then .ok () else .error .valueError

/-- `_simple_versions`: every element is a single whitespace token. -/
def simple_versions (versions : List String) : Bool :=
  versions.all (fun v => (pySplitWs v).length == 1)

/-- `_cmp_versions`: every element splits into exactly two whitespace tokens
and every first token is a key of `OP_MAP`. -/
def cmp_versions (versions : List String) : Bool :=
  let split := versions.map pySplitWs
  if !split.all (fun s => s.length == 2) then false
  else split.all (fun s => (OP_MAP (s.headD "")).isSome)

/-- The `for match in match_list` loop of the comparison branch of
`matches_version`: short-circuits to `False` on the first failing constraint.
The error cases model the `ValueError` of a failed two-way unpack and the
`KeyError` of a missing `OP_MAP` key; both are unreachable when
`_cmp_versions` held. -/
def cmpLoop (dt : Nat × Nat) : List String → Except PyErr Bool
  | [] => .ok true
  | m :: rest =>
    match pySplitWs m with
    | [op, ver] =>
      match version_to_tuple ver with
      | .error e => .error e
      | .ok vt =>
        match OP_MAP op with
        | some f => if f dt vt then cmpLoop dt rest else .ok false
        | Option.none => .error .keyError
    | _ => .error .valueError

/-- Lines 74–93 of `matches_version`, after the three dynamic type checks:
validate `detected`, then dispatch on the two grammars. -/
def matchesVersionCore (match_list : List String) (detected : String) :
    Except PyErr Bool :=
  match validate_versions [detected] with
  | .error e => .error e
  | .ok _ =>
    if simple_versions match_list then
      match validate_versions match_list with
      | .error e => .error e
      | .ok _ => .ok (match_list.contains detected)
    else if cmp_versions match_list then
      match version_to_tuple detected with
      | .error e => .error e
      | .ok dt =>
        match validate_versions (match_list.map (fun s => (pySplitWs s).getD 1 "")) with
        | .error e => .error e
        | .ok _ => cmpLoop dt match_list
    else
      .error .valueError

/-- Collect a list of Python values into strings; `none` as soon as some
element is not a string (the `all(isinstance(e, six.string_types) …)` check). -/
def asStrings : List PyVal → Option (List String)
  | [] => some []
  | .str s :: rest => (asStrings rest).map (fun ss => s :: ss)
  | _ => Option.none

/-- `matches_version(match_list, detected)`: the three dynamic type checks of
lines 65–73 (each raising `TypeError`), then `matchesVersionCore`. -/
def matches_version (match_list detected : PyVal) : Except PyErr Bool :=
  match match_list with
  | .list xs | .tuple xs =>
    match asStrings xs with
    | some ss =>
      match detected with
      | .str d => matchesVersionCore ss d
      | _ => .error .typeError
    | Option.none => .error .typeError
  | _ => .error .typeError

/-- The shapes `allowed_releases` takes at the call sites of
`matches_release`: a dict (association list), a sequence of release names, or
Python `None` (absent). -/
inductive Releases where
  | dict (entries : List (String × List String))
  | seq (xs : List String)
  | pynone
  deriving DecidableEq, Repr

/-- Python truthiness of an `allowed_releases` value: `None` and empty
collections are falsy. -/
def releasesTruthy : Releases → Bool
  | .dict e => !e.isEmpty
  | .seq xs => !xs.isEmpty
  | .pynone => false

/-- Python `release in allowed_releases`: key membership for a dict, element
membership for a sequence. -/
def releasesContains (r : Releases) (k : String) : Bool :=
  match r with
  | .dict e => e.any (fun p => p.1 == k)
  | .seq xs => xs.contains k
  | .pynone => false

/-- `matches_release(allowed_releases, release)`: `False` unless both
arguments are truthy, else containment. -/
def matches_release (allowed : Releases) (release : String) : Bool :=
  if !(release != "" && releasesTruthy allowed) then false
  else releasesContains allowed release

/-- Association-list lookup, modelling Python dict indexing
(`SUPPORTED_VERSION[release_id]`); `none` models the `KeyError` case. -/
def dictGet (d : List (String × List String)) (k : String) : Option (List String) :=
  match d with
  | [] => Option.none
  | p :: rest => if p.1 == k then some p.2 else dictGet rest k

/-- `current_version()`: the first `OSReleaseFacts` message as a
`(release_id, version_id)` pair; `StopActorExecutionError` when there is
none.  (The warning on extra messages is a pure log side effect and is not
modelled.) -/
def current_version (factsMsgs : List (String × String)) :
    Except PyErr (String × String) :=
  match factsMsgs with
  | [] => .error .stopActorExecutionError
  | f :: _ => .ok f

/-- `is_supported_version()`, with its two external reads made explicit:
`skip` is the presence of `LEAPP_SKIP_CHECK_OS_RELEASE` in the environment and
`factsMsgs` the consumed `OSReleaseFacts` messages. -/
def is_supported_version (skip : Bool) (factsMsgs : List (String × String)) :
    Except PyErr Bool :=
  if skip then
    .ok true
  else
    match current_version factsMsgs with
    | .error e => .error e
    | .ok rv =>
      if !matches_release (.dict SUPPORTED_VERSION) rv.1 then
        .ok false
      else
        match dictGet SUPPORTED_VERSION rv.1 with
        | some vs => matches_version (.list (vs.map .str)) (.str rv.2)
        | Option.none => .error .keyError

/-! ### Specification-side definitions

The remaining definitions are not translations of code in `version.py`; they
express the meanings the specification assigns to the behaviour (the truth of
one comparison constraint, decimal formatting for the parse/format round
trip), to be compared against the embedded code. -/

/-- Truth of one comparison constraint `"<op> <ver>"` against the detected
tuple `dt`, as the specification reads it: the element splits into a
comparator token and a version token and the comparator holds between the
parsed tuples. -/
def constraintHolds (dt : Nat × Nat) (m : String) : Bool :=
  match pySplitWs m with
  | [op, ver] =>
    match OP_MAP op with
    | some f => f dt (vtup ver)
    | Option.none => false
  | _ => false

/-- The decimal digit character of `n < 10`. -/
def digitChar : Nat → Char
  | 0 => '0' | 1 => '1' | 2 => '2' | 3 => '3' | 4 => '4'
  | 5 => '5' | 6 => '6' | 7 => '7' | 8 => '8' | 9 => '9'
  | _ => '*'

/-- Numeric value of a decimal digit character. -/
def invDigit (c : Char) : Nat := c.toNat - 48

/-- `int(…)` on a character list (`parseNat` is this on `s.data`). -/
def valChars (l : List Char) : Nat :=
  l.foldl (fun a c => a * 10 + (c.toNat - 48)) 0

/-- Canonical decimal rendering of a natural number. -/
def reprNat (n : Nat) : String :=
  if n = 0 then "0" else ⟨((Nat.digits 10 n).map digitChar).reverse⟩

/-- Formatting a `(major, minor)` pair back to `"<major>.<minor>"`. -/
def formatVersion (t : Nat × Nat) : String :=
  reprNat t.1 ++ "." ++ reprNat t.2

/-- Strip leading zero characters, keeping a lone `'0'` for the all-zero
string. -/
def stripZeros (l : List Char) : List Char :=
  match l.dropWhile (fun c => c == '0') with
  | [] => ['0']
  | t => t

/-- Numeric normalization of one version segment: drop leading zeros. -/
def normalizeSeg (s : String) : String := ⟨stripZeros s.data⟩

/-- A version segment carries no leading zeros: its first character is not
`'0'`, or it is the single digit `"0"`. -/
def noLeadingZeros (s : String) : Bool :=
  s.data.headD ' ' != '0' || s.data.length == 1

/-- The elements of a Python list or tuple value (other values have none). -/
def pyElems : PyVal → List PyVal
  | .list xs => xs
  | .tuple xs => xs
  | _ => []

/-- Whether a Python value is a string. -/
def isStr : PyVal → Bool
  | .str _ => true
  | _ => false

end VersionPy

namespace VersionPy

/-! ### Helper lemmas -/

theorem validate_versions_ok {versions : List String}
    (h : versions.all wellFormedVersion = true) : validate_versions versions = .ok () := by
  simp [validate_versions, h]

theorem validate_versions_error {versions : List String}
    (h : versions.all wellFormedVersion = false) :
    validate_versions versions = .error .valueError := by
  simp [validate_versions, h]

theorem validate_single_ok {d : String} (h : wellFormedVersion d = true) :
    validate_versions [d] = .ok () :=
  validate_versions_ok (by simp [h])

theorem asStrings_map_str (ms : List String) :
    asStrings (ms.map PyVal.str) = some ms := by
  induction ms with
  | nil => rfl
  | cons m rest ih => simp [asStrings, ih]

theorem matches_version_strs (ms : List String) (d : String) :
    matches_version (.list (ms.map PyVal.str)) (.str d) = matchesVersionCore ms d := by
  simp [matches_version, asStrings_map_str]

theorem matches_version_strs_tuple (ms : List String) (d : String) :
    matches_version (.tuple (ms.map PyVal.str)) (.str d) = matchesVersionCore ms d := by
  simp [matches_version, asStrings_map_str]

theorem version_to_tuple_eq_vtup {s : String} (h : wellFormedVersion s = true) :
    version_to_tuple s = .ok (vtup s) := by
  have h2 : (pySplitDot s).length = 2 := by
    simp only [wellFormedVersion, Bool.and_eq_true, beq_iff_eq] at h
    exact h.1
  match hs : pySplitDot s with
  | [a, b] => simp [version_to_tuple, vtup, hs]
  | [] => rw [hs] at h2; simp at h2
  | [a] => rw [hs] at h2; simp at h2
  | a :: b :: c :: rest => rw [hs] at h2; simp at h2

theorem simple_versions_of_singletons {ms : List String}
    (hms : ∀ m ∈ ms, wellFormedVersion m = true ∧ (pySplitWs m).length = 1) :
    simple_versions ms = true := by
  unfold simple_versions
  rw [List.all_eq_true]
  intro m hm
  simpa using (hms m hm).2

/-- C2: on a non-empty match list of single-token well-formed version strings
and a well-formed detected string, `matches_version` takes the simple branch
and returns exact string membership of `detected` in the list (OR
semantics). -/
theorem matchesVersion_simple_or_semantics (ms : List String) (d : String)
    (hne : ms ≠ [])
    (hms : ∀ m ∈ ms, wellFormedVersion m = true ∧ (pySplitWs m).length = 1)
    (hd : wellFormedVersion d = true) :
    matches_version (.list (ms.map PyVal.str)) (.str d) = .ok (ms.contains d) := by
  rw [matches_version_strs]
  have hval : validate_versions ms = .ok () :=
    validate_versions_ok (by rw [List.all_eq_true]; intro m hm; exact (hms m hm).1)
  simp [matchesVersionCore, validate_single_ok hd, simple_versions_of_singletons hms, hval]

/-- Witness for C2 at the spec's example: `["7.6", "7.7"]` against `"7.6"`
matches, and against `"7.8"` does not. -/
theorem matchesVersion_simple_or_semantics_witness :
    matches_version (.list [.str "7.6", .str "7.7"]) (.str "7.6") = .ok true
    ∧ matches_version (.list [.str "7.6", .str "7.7"]) (.str "7.8") = .ok false := by
  constructor
  · have h := matchesVersion_simple_or_semantics ["7.6", "7.7"] "7.6"
      (by simp) (by decide) (by decide)
    rw [show (["7.6", "7.7"].map PyVal.str) = [.str "7.6", .str "7.7"] from rfl] at h
    rw [h]; rfl
  · have h := matchesVersion_simple_or_semantics ["7.6", "7.7"] "7.8"
      (by simp) (by decide) (by decide)
    rw [show (["7.6", "7.7"].map PyVal.str) = [.str "7.6", .str "7.7"] from rfl] at h
    rw [h]; rfl

/-- C5: a match list matching neither grammar (not all single-token, not all
comparator pairs) makes `matches_version` fail with `ValueError`
(`InvalidFormatError`), for any well-formed detected string. -/
theorem matchesVersion_mixed_invalid (ms : List String) (d : String)
    (hd : wellFormedVersion d = true)
    (hs : simple_versions ms = false) (hc : cmp_versions ms = false) :
    matches_version (.list (ms.map PyVal.str)) (.str d) = .error .valueError := by
  rw [matches_version_strs]
  simp [matchesVersionCore, validate_single_ok hd, hs, hc]

/-- Witness for C5 at the spec's example `["7.6", ">= 7.7"]`. -/
theorem matchesVersion_mixed_invalid_witness :
    matches_version (.list [.str "7.6", .str ">= 7.7"]) (.str "7.6")
      = .error .valueError := by
  have h := matchesVersion_mixed_invalid ["7.6", ">= 7.7"] "7.6"
    (by decide) (by decide) (by decide)
  rw [show (["7.6", ">= 7.7"].map PyVal.str) = [.str "7.6", .str ">= 7.7"] from rfl] at h
  exact h

/-- C6: a malformed detected string makes `matches_version` fail with
`ValueError` (`InvalidFormatError`) for every match list of strings — list or
tuple, whatever its contents — because `detected` is validated before the
match list is classified or validated. -/
theorem matchesVersion_detected_format_first (ms : List String) (d : String)
    (hd : wellFormedVersion d = false) :
    matches_version (.list (ms.map PyVal.str)) (.str d) = .error .valueError
    ∧ matches_version (.tuple (ms.map PyVal.str)) (.str d) = .error .valueError := by
  have hv : validate_versions [d] = .error .valueError :=
    validate_versions_error (by simp [hd])
  refine ⟨?_, ?_⟩
  · rw [matches_version_strs]; simp [matchesVersionCore, hv]
  · rw [matches_version_strs_tuple]; simp [matchesVersionCore, hv]

/-- Witness for C6 at the spec's example `matchesVersion(["7.6"], "7.x")`. -/
theorem matchesVersion_detected_format_first_witness :
    matches_version (.list [.str "7.6"]) (.str "7.x") = .error .valueError := by
  have h := (matchesVersion_detected_format_first ["7.6"] "7.x" (by decide)).1
  rw [show (["7.6"].map PyVal.str) = [.str "7.6"] from rfl] at h
  exact h

/-- Counterexample to C4 as stated: with an empty match list and the
well-formed detected string `"7.6"`, `matches_version` does not return
`true`. -/
theorem matchesVersion_empty_cex :
    matches_version (.list []) (.str "7.6") ≠ .ok true := by
  intro h
  exact Bool.noConfusion (Except.ok.inj h)

/-- C4 (amended): with an empty match list and a well-formed detected string,
`matches_version` returns `false` — the empty list is classified as the
simple form and the membership test over the empty list fails. -/
theorem matchesVersion_empty_false (d : String) (hd : wellFormedVersion d = true) :
    matches_version (.list []) (.str d) = .ok false := by
  have h : matches_version (.list (([] : List String).map PyVal.str)) (.str d)
      = matchesVersionCore [] d := matches_version_strs [] d
  simp only [List.map_nil] at h
  rw [h]
  simp [matchesVersionCore, validate_single_ok hd, simple_versions, validate_versions, hd]

/-- Witness for the amended C4 at detected `"7.6"`. -/
theorem matchesVersion_empty_false_witness :
    matches_version (.list []) (.str "7.6") = .ok false :=
  matchesVersion_empty_false "7.6" (by decide)

/-- C10: the empty match list is classified as the simple form
(`_simple_versions` holds vacuously), so `matches_version` with an empty list
and a well-formed detected string returns `false` by the membership test,
reaching neither the comparison branch nor the neither-grammar error. -/
theorem matchesVersion_empty_simple_branch :
    simple_versions [] = true
    ∧ ∀ d, wellFormedVersion d = true →
        matchesVersionCore [] d = .ok (List.contains [] d) := by
  refine ⟨rfl, fun d hd => ?_⟩
  simp [matchesVersionCore, validate_single_ok hd, simple_versions, validate_versions, hd]

/-- Witness for C10 at detected `"7.6"`. -/
theorem matchesVersion_empty_simple_branch_witness :
    matchesVersionCore [] "7.6" = .ok (List.contains [] "7.6") :=
  matchesVersion_empty_simple_branch.2 "7.6" (by decide)

/-- C9: `matches_release` (a total function — it has no error path): `false`
when the release is empty or the allowed collection is falsy (empty or
`None`), else containment — key membership for a dict, element membership for
a sequence — with the spec's two examples. -/
theorem matches_release_spec :
    (∀ ar r, r = "" ∨ releasesTruthy ar = false → matches_release ar r = false)
    ∧ (∀ ar r, r ≠ "" → releasesTruthy ar = true →
        matches_release ar r = releasesContains ar r)
    ∧ matches_release (.dict []) "rhel" = false
    ∧ matches_release (.dict [("rhel", ["7.6"])]) "rhel" = true := by
  refine ⟨?_, ?_, rfl, rfl⟩
  · rintro ar r (rfl | h)
    · simp [matches_release]
    · simp [matches_release, h]
  · intro ar r h1 h2
    simp [matches_release, h1, h2]

/-- Witness for C9: both non-vacuous cases at concrete inputs. -/
theorem matches_release_spec_witness :
    matches_release (.seq []) "rhel" = false
    ∧ matches_release (.dict [("rhel", ["7.6"])]) "fedora"
        = releasesContains (.dict [("rhel", ["7.6"])]) "fedora" :=
  ⟨matches_release_spec.1 (.seq []) "rhel" (Or.inr rfl),
   matches_release_spec.2.1 (.dict [("rhel", ["7.6"])]) "fedora"
     (by decide) (by decide)⟩

theorem asStrings_eq_none {xs : List PyVal}
    (h : ∃ x ∈ xs, isStr x = false) : asStrings xs = Option.none := by
  induction xs with
  | nil =>
    obtain ⟨x, hx, -⟩ := h
    cases hx
  | cons y rest ih =>
    obtain ⟨x, hx, hxs⟩ := h
    cases y with
    | str s =>
      rcases List.mem_cons.mp hx with rfl | hmem
      · simp [isStr] at hxs
      · simp [asStrings, ih ⟨x, hmem, hxs⟩]
    | int n => rfl
    | list l => rfl
    | tuple l => rfl
    | none => rfl

/-- C7: `matches_version` raises `TypeError` (`InvalidArgumentError`) — not
`ValueError` — whenever the match list is not a list or tuple, or one of its
elements is not a string, or the detected value is not a string. -/
theorem matchesVersion_type_errors (ml d : PyVal)
    (h : ((∀ xs, ml ≠ .list xs) ∧ (∀ xs, ml ≠ .tuple xs))
       ∨ (∃ x ∈ pyElems ml, isStr x = false)
       ∨ isStr d = false) :
    matches_version ml d = .error .typeError := by
  cases ml with
  | str s => rfl
  | int n => rfl
  | none => rfl
  | list xs =>
    rcases h with ⟨h1, -⟩ | h2 | h3
    · exact absurd rfl (h1 xs)
    · simp only [pyElems] at h2
      simp [matches_version, asStrings_eq_none h2]
    · cases hs : asStrings xs with
      | none => simp [matches_version, hs]
      | some ss =>
        cases d with
        | str s => simp [isStr] at h3
        | int n => simp [matches_version, hs]
        | list l => simp [matches_version, hs]
        | tuple l => simp [matches_version, hs]
        | none => simp [matches_version, hs]
  | tuple xs =>
    rcases h with ⟨-, h1⟩ | h2 | h3
    · exact absurd rfl (h1 xs)
    · simp only [pyElems] at h2
      simp [matches_version, asStrings_eq_none h2]
    · cases hs : asStrings xs with
      | none => simp [matches_version, hs]
      | some ss =>
        cases d with
        | str s => simp [isStr] at h3
        | int n => simp [matches_version, hs]
        | list l => simp [matches_version, hs]
        | tuple l => simp [matches_version, hs]
        | none => simp [matches_version, hs]

/-- Witness for C7 at the spec's example `matchesVersion("7.6", "7.6")`: the
match list is a bare string, not a sequence. -/
theorem matchesVersion_type_errors_witness :
    matches_version (.str "7.6") (.str "7.6") = .error .typeError :=
  matchesVersion_type_errors (.str "7.6") (.str "7.6")
    (Or.inl ⟨fun xs h => PyVal.noConfusion h, fun xs h => PyVal.noConfusion h⟩)

theorem simple_versions_false_of_pairs {ms : List String} (hne : ms ≠ [])
    (hms : ∀ m ∈ ms, ∃ op ver, pySplitWs m = [op, ver] ∧ (OP_MAP op).isSome = true
      ∧ wellFormedVersion ver = true) :
    simple_versions ms = false := by
  cases ms with
  | nil => exact absurd rfl hne
  | cons m rest =>
    obtain ⟨op, ver, hsplit, -, -⟩ := hms m (List.mem_cons_self m rest)
    simp [simple_versions, hsplit]

theorem cmp_versions_true_of_pairs {ms : List String}
    (hms : ∀ m ∈ ms, ∃ op ver, pySplitWs m = [op, ver] ∧ (OP_MAP op).isSome = true
      ∧ wellFormedVersion ver = true) :
    cmp_versions ms = true := by
  have h1 : (ms.map pySplitWs).all (fun s => s.length == 2) = true := by
    rw [List.all_eq_true]
    intro s hs
    obtain ⟨m, hm, rfl⟩ := List.mem_map.mp hs
    obtain ⟨op, ver, hsplit, -, -⟩ := hms m hm
    simp [hsplit]
  simp only [cmp_versions, h1, Bool.not_true, Bool.false_eq_true, if_false,
    List.all_eq_true]
  intro a ha
  obtain ⟨m, hm, rfl⟩ := List.mem_map.mp ha
  obtain ⟨op, ver, hsplit, hop, -⟩ := hms m hm
  simp [hsplit, hop]

theorem validate_second_tokens {ms : List String}
    (hms : ∀ m ∈ ms, ∃ op ver, pySplitWs m = [op, ver] ∧ (OP_MAP op).isSome = true
      ∧ wellFormedVersion ver = true) :
    validate_versions (ms.map (fun s => (pySplitWs s)[1]?.getD "")) = .ok () := by
  apply validate_versions_ok
  rw [List.all_eq_true]
  intro x hx
  obtain ⟨m, hm, rfl⟩ := List.mem_map.mp hx
  obtain ⟨op, ver, hsplit, -, hver⟩ := hms m hm
  simp [hsplit, hver]

theorem cmpLoop_eq_all (dt : Nat × Nat) : ∀ (ms : List String),
    (∀ m ∈ ms, ∃ op ver, pySplitWs m = [op, ver] ∧ (OP_MAP op).isSome = true
      ∧ wellFormedVersion ver = true) →
    cmpLoop dt ms = .ok (ms.all (constraintHolds dt))
  | [], _ => rfl
  | m :: rest, hms => by
    obtain ⟨op, ver, hsplit, hop, hver⟩ := hms m (List.mem_cons_self m rest)
    obtain ⟨f, hf⟩ := Option.isSome_iff_exists.mp hop
    have hrest := cmpLoop_eq_all dt rest (fun x hx => hms x (List.mem_cons_of_mem _ hx))
    have hch : constraintHolds dt m = f dt (vtup ver) := by
      simp [constraintHolds, hsplit, hf]
    cases hb : f dt (vtup ver) with
    | true =>
      simp [cmpLoop, hsplit, version_to_tuple_eq_vtup hver, hf, hb, hrest,
        List.all_cons, hch]
    | false =>
      simp [cmpLoop, hsplit, version_to_tuple_eq_vtup hver, hf, hb,
        List.all_cons, hch]

/-- Counterexample to C4 as written and to the universal form of C1 at the
empty match list: it vacuously has the comparison shape and vacuously
satisfies every constraint, yet `matches_version` returns `false`, not
`true`. -/
theorem matchesVersion_cmp_empty_cex :
    List.all [] (constraintHolds (vtup "7.6")) = true
    ∧ matches_version (.list []) (.str "7.6") ≠ .ok true :=
  ⟨rfl, fun h => Bool.noConfusion (Except.ok.inj h)⟩

/-- C1 (amended: non-empty match list): on a non-empty match list whose every
element splits into a recognized comparator and a well-formed version, and a
well-formed detected string, `matches_version` returns `true` iff every
constraint holds between the parsed tuples — AND semantics. -/
theorem matchesVersion_cmp_and_semantics (ms : List String) (d : String)
    (hne : ms ≠ [])
    (hms : ∀ m ∈ ms, ∃ op ver, pySplitWs m = [op, ver] ∧ (OP_MAP op).isSome = true
      ∧ wellFormedVersion ver = true)
    (hd : wellFormedVersion d = true) :
    matches_version (.list (ms.map PyVal.str)) (.str d)
      = .ok (ms.all (constraintHolds (vtup d))) := by
  rw [matches_version_strs]
  simp [matchesVersionCore, validate_single_ok hd,
    simple_versions_false_of_pairs hne hms, cmp_versions_true_of_pairs hms,
    version_to_tuple_eq_vtup hd, validate_second_tokens hms,
    cmpLoop_eq_all (vtup d) ms hms]

/-- Witness for the amended C1 at the spec's example
`[">= 7.6", "< 7.8"]` against `"7.6"`: the AND of the constraints, which
evaluates to `true`. -/
theorem matchesVersion_cmp_and_semantics_witness :
    matches_version (.list [.str ">= 7.6", .str "< 7.8"]) (.str "7.6")
      = .ok ([">= 7.6", "< 7.8"].all (constraintHolds (vtup "7.6")))
    ∧ [">= 7.6", "< 7.8"].all (constraintHolds (vtup "7.6")) = true := by
  constructor
  · have h := matchesVersion_cmp_and_semantics [">= 7.6", "< 7.8"] "7.6"
      (by simp)
      (by
        intro m hm
        rcases List.mem_cons.mp hm with rfl | hm2
        · exact ⟨">=", "7.6", by decide, by decide, by decide⟩
        · rcases List.mem_cons.mp hm2 with rfl | hm3
          · exact ⟨"<", "7.8", by decide, by decide, by decide⟩
          · cases hm3)
      (by decide)
    rw [show ([">= 7.6", "< 7.8"].map PyVal.str)
        = [PyVal.str ">= 7.6", PyVal.str "< 7.8"] from rfl] at h
    exact h
  · rfl

theorem matches_release_supported_ne (r : String) (h : ("rhel" == r) = false) :
    matches_release (.dict SUPPORTED_VERSION) r = false := by
  by_cases he : r = ""
  · subst he; rfl
  · simp [matches_release, releasesTruthy, releasesContains, SUPPORTED_VERSION, he, h]

/-- C3: `is_supported_version` returns `true` whenever the skip flag is set,
regardless of the facts; otherwise, on facts `(releaseId, versionId)`, it
returns `false` when `releaseId` is not a key of `SUPPORTED_VERSION`, and
equals `matches_version(SUPPORTED_VERSION[releaseId], versionId)` when it is;
in particular `("rhel", "7.6") ↦ true`, `("rhel", "7.7") ↦ false`, and any
`"centos"` facts give `false`. -/
theorem is_supported_version_spec :
    (∀ factsMsgs, is_supported_version true factsMsgs = .ok true)
    ∧ (∀ r v rest, dictGet SUPPORTED_VERSION r = Option.none →
        is_supported_version false ((r, v) :: rest) = .ok false)
    ∧ (∀ v rest, is_supported_version false (("rhel", v) :: rest)
        = matches_version (.list [.str "7.6"]) (.str v))
    ∧ is_supported_version false [("rhel", "7.6")] = .ok true
    ∧ is_supported_version false [("rhel", "7.7")] = .ok false
    ∧ (∀ v rest, is_supported_version false (("centos", v) :: rest) = .ok false) := by
  refine ⟨fun facts => rfl, ?_, ?_, rfl, rfl, fun v rest => rfl⟩
  · intro r v rest h
    have hb : ("rhel" == r) = false := by
      cases hb : ("rhel" == r) with
      | true => simp [dictGet, SUPPORTED_VERSION, hb] at h
      | false => rfl
    simp [is_supported_version, current_version, matches_release_supported_ne r hb]
  · intro v rest
    simp [is_supported_version, current_version, matches_release, releasesTruthy,
      releasesContains, SUPPORTED_VERSION, dictGet]

/-- Witness for C3: `"centos"` is not a key of the table, and the
corresponding call returns `false`. -/
theorem is_supported_version_spec_witness :
    dictGet SUPPORTED_VERSION "centos" = Option.none
    ∧ is_supported_version false [("centos", "7.6")] = .ok false :=
  ⟨rfl, is_supported_version_spec.2.1 "centos" "7.6" [] rfl⟩

/-! ### The parse/format round trip (C8) -/

theorem string_eq_of_data {x y : String} (h : x.data = y.data) : x = y := by
  cases x
  cases y
  exact congrArg String.mk h

theorem isDigit_bounds {c : Char} (h : c.isDigit = true) :
    48 ≤ c.toNat ∧ c.toNat ≤ 57 := by
  unfold Char.isDigit at h
  rw [Bool.and_eq_true] at h
  obtain ⟨h1, h2⟩ := h
  rw [decide_eq_true_iff] at h1 h2
  exact ⟨h1, h2⟩

theorem digitChar_invDigit {c : Char} (h : c.isDigit = true) :
    digitChar (invDigit c) = c := by
  obtain ⟨h1, h2⟩ := isDigit_bounds h
  conv_rhs => rw [← Char.ofNat_toNat c]
  unfold invDigit
  generalize hg : c.toNat = t at h1 h2 ⊢
  interval_cases t <;> decide

theorem invDigit_lt_ten {c : Char} (h : c.isDigit = true) : invDigit c < 10 := by
  obtain ⟨h1, h2⟩ := isDigit_bounds h
  unfold invDigit
  omega

theorem invDigit_ne_zero {c : Char} (h : c.isDigit = true) (hne : c ≠ '0') :
    invDigit c ≠ 0 := by
  obtain ⟨h1, h2⟩ := isDigit_bounds h
  unfold invDigit
  intro hz
  have ht : c.toNat = 48 := by omega
  apply hne
  rw [← Char.ofNat_toNat c, ht]

theorem foldl_eq_ofDigits (l : List Char) (a : Nat) :
    l.foldl (fun a c => a * 10 + (c.toNat - 48)) a
      = a * 10 ^ l.length + Nat.ofDigits 10 ((l.map invDigit).reverse) := by
  induction l generalizing a with
  | nil => simp [Nat.ofDigits]
  | cons c cs ih =>
    rw [List.foldl_cons, ih]
    simp only [List.map_cons, List.reverse_cons, Nat.ofDigits_append,
      List.length_reverse, List.length_map, List.length_cons, List.map_reverse]
    simp [Nat.ofDigits, invDigit]
    ring

theorem valChars_eq_ofDigits (l : List Char) :
    valChars l = Nat.ofDigits 10 ((l.map invDigit).reverse) := by
  unfold valChars
  rw [foldl_eq_ofDigits]
  simp

theorem parseNat_eq_valChars (s : String) : parseNat s = valChars s.data := rfl

theorem reprNat_valChars (l : List Char) (hne : l ≠ [])
    (hdig : ∀ c ∈ l, c.isDigit = true)
    (hcanon : l = ['0'] ∨ ∀ c0 ∈ l.head?, c0 ≠ '0') :
    reprNat (valChars l) = ⟨l⟩ := by
  rcases hcanon with rfl | hh
  · decide
  · have hL : ∀ x ∈ (l.map invDigit).reverse, x < 10 := by
      intro x hx
      rw [List.mem_reverse] at hx
      obtain ⟨c, hc, rfl⟩ := List.mem_map.mp hx
      exact invDigit_lt_ten (hdig c hc)
    have hlast : ∀ h : (l.map invDigit).reverse ≠ [],
        ((l.map invDigit).reverse).getLast h ≠ 0 := by
      intro h
      cases l with
      | nil => exact absurd rfl hne
      | cons c cs =>
        have heq : ((c :: cs).map invDigit).reverse
            = (cs.map invDigit).reverse ++ [invDigit c] := by simp
        rw [List.getLast_congr _ (by simp) heq, List.getLast_append]
        exact invDigit_ne_zero (hdig c (List.mem_cons_self c cs))
          (hh c (by simp))
    have hd := Nat.digits_ofDigits 10 (by norm_num) ((l.map invDigit).reverse) hL hlast
    have hv : Nat.ofDigits 10 ((l.map invDigit).reverse) ≠ 0 := by
      intro h0
      rw [h0] at hd
      have hlen : l.length = 0 := by
        have := congrArg List.length hd
        simpa using this.symm
      exact hne (List.length_eq_zero.mp hlen)
    unfold reprNat
    rw [valChars_eq_ofDigits, if_neg hv, hd]
    congr 1
    rw [List.map_reverse, List.reverse_reverse, List.map_map]
    have hid : ∀ c ∈ l, (digitChar ∘ invDigit) c = id c := by
      intro c hc
      exact digitChar_invDigit (hdig c hc)
    rw [List.map_congr_left hid, List.map_id]

theorem splitOnDot_ne_nil (l : List Char) : splitOnDot l ≠ [] := by
  cases l with
  | nil => simp [splitOnDot]
  | cons c cs =>
    unfold splitOnDot
    cases splitOnDot cs with
    | nil => simp
    | cons t ts =>
      by_cases hc : c = '.' <;> simp [hc]

theorem splitOnDot_singleton : ∀ (l : List Char) (x : List Char),
    splitOnDot l = [x] → l = x
  | [], x => by
    intro h
    have h2 : ([[]] : List (List Char)) = [x] := h
    injection h2
  | c :: cs, x => by
    intro h
    rcases hs : splitOnDot cs with - | ⟨t, ts⟩
    · exact absurd hs (splitOnDot_ne_nil cs)
    · simp only [splitOnDot, hs] at h
      by_cases hc : c = '.'
      · rw [if_pos hc] at h
        injection h with h1 h2
        exact absurd h2 (List.cons_ne_nil t ts)
      · rw [if_neg hc] at h
        injection h with h1 h2
        subst h1
        have hcs : cs = t := splitOnDot_singleton cs t (by rw [hs, h2])
        rw [hcs]

theorem splitOnDot_pair : ∀ (l : List Char) (a b : List Char),
    splitOnDot l = [a, b] → l = a ++ '.' :: b
  | [], a, b => by
    intro h
    have h2 : ([[]] : List (List Char)) = [a, b] := h
    injection h2 with h1 h3
    exact absurd h3.symm (List.cons_ne_nil b [])
  | c :: cs, a, b => by
    intro h
    rcases hs : splitOnDot cs with - | ⟨t, ts⟩
    · exact absurd hs (splitOnDot_ne_nil cs)
    · simp only [splitOnDot, hs] at h
      by_cases hc : c = '.'
      · rw [if_pos hc] at h
        injection h with h1 h2
        injection h2 with h3 h4
        have hcs : cs = b := splitOnDot_singleton cs b (by rw [hs, h3, h4])
        subst hc
        rw [hcs, ← h1]
        rfl
      · rw [if_neg hc] at h
        injection h with h1 h2
        subst h1
        have hcs : cs = t ++ '.' :: b := splitOnDot_pair cs t b (by rw [hs, h2])
        rw [hcs]
        rfl

theorem valChars_dropWhile_zeros (l : List Char) :
    valChars (l.dropWhile (fun c => c == '0')) = valChars l := by
  induction l with
  | nil => rfl
  | cons c cs ih =>
    by_cases hc : c = '0'
    · subst hc
      rw [List.dropWhile_cons_of_pos (by simp)]
      exact ih.trans rfl
    · rw [List.dropWhile_cons_of_neg (by simp [hc])]

theorem valChars_stripZeros (l : List Char) :
    valChars (stripZeros l) = valChars l := by
  rcases hd : l.dropWhile (fun c => c == '0') with - | ⟨t, ts⟩
  · have h1 : stripZeros l = ['0'] := by unfold stripZeros; rw [hd]
    have h0 : valChars l = 0 := by rw [← valChars_dropWhile_zeros, hd]; rfl
    rw [h1, h0]; rfl
  · have h1 : stripZeros l = t :: ts := by unfold stripZeros; rw [hd]
    rw [h1, ← hd, valChars_dropWhile_zeros]

theorem dropWhile_zeros_head (l : List Char) :
    ∀ c0 ∈ (l.dropWhile (fun c => c == '0')).head?, c0 ≠ '0' := by
  induction l with
  | nil => simp
  | cons c cs ih =>
    by_cases hc : c = '0'
    · subst hc
      rw [List.dropWhile_cons_of_pos (by simp)]
      exact ih
    · rw [List.dropWhile_cons_of_neg (by simp [hc])]
      simp [hc]

theorem stripZeros_canonical (l : List Char) :
    stripZeros l = ['0'] ∨ ∀ c0 ∈ (stripZeros l).head?, c0 ≠ '0' := by
  unfold stripZeros
  rcases hd : l.dropWhile (fun c => c == '0') with - | ⟨t, ts⟩
  · exact Or.inl rfl
  · right
    have hh := dropWhile_zeros_head l
    rw [hd] at hh
    exact hh

theorem stripZeros_ne_nil (l : List Char) : stripZeros l ≠ [] := by
  unfold stripZeros
  rcases hd : l.dropWhile (fun c => c == '0') with - | ⟨t, ts⟩
  · simp
  · simp

theorem stripZeros_digits (l : List Char) (hdig : ∀ c ∈ l, c.isDigit = true) :
    ∀ c ∈ stripZeros l, c.isDigit = true := by
  unfold stripZeros
  rcases hd : l.dropWhile (fun c => c == '0') with - | ⟨t, ts⟩
  · intro c hc
    rw [List.mem_singleton] at hc
    subst hc
    rfl
  · intro c hc
    apply hdig
    have hsub : List.Sublist (t :: ts) l := by
      rw [← hd]
      exact List.dropWhile_sublist _
    exact hsub.mem hc

theorem stripZeros_eq_self (l : List Char) (hne : l ≠ [])
    (h : (l.headD ' ' != '0' || l.length == 1) = true) : stripZeros l = l := by
  cases l with
  | nil => exact absurd rfl hne
  | cons c cs =>
    by_cases hc : c = '0'
    · subst hc
      simp only [List.headD_cons, bne_self_eq_false, Bool.false_or] at h
      have hcs : cs = [] := by
        cases cs with
        | nil => rfl
        | cons d ds => simp at h
      subst hcs
      rfl
    · unfold stripZeros
      rw [List.dropWhile_cons_of_neg (by simp [hc])]

theorem reprNat_seg (s : String) (hdig : ∀ c ∈ s.data, c.isDigit = true) :
    reprNat (valChars s.data) = normalizeSeg s := by
  rw [← valChars_stripZeros]
  exact reprNat_valChars (stripZeros s.data) (stripZeros_ne_nil _)
    (stripZeros_digits _ hdig) (stripZeros_canonical _)

theorem pySplitDot_inv (s a b : String) (h : pySplitDot s = [a, b]) :
    splitOnDot s.data = [a.data, b.data] := by
  unfold pySplitDot at h
  rcases hs0 : splitOnDot s.data with - | ⟨x, - | ⟨y, - | ⟨z, zs⟩⟩⟩
  · rw [hs0] at h; cases h
  · rw [hs0] at h; cases h
  · rw [hs0] at h
    injection h with h1 h2
    injection h2 with h3 h4
    rw [← h1, ← h3]
  · rw [hs0] at h
    injection h with h1 h2
    injection h2 with h3 h4
    cases h4

/-- C8: for every well-formed version string with segments `a` and `b`,
parsing with `_version_to_tuple` and formatting the tuple back as
`"<major>.<minor>"` yields the string with each segment numerically
normalized; when neither segment carries leading zeros the round trip is the
identity. -/
theorem parse_format_roundtrip (s a b : String)
    (hwf : wellFormedVersion s = true)
    (hsplit : pySplitDot s = [a, b]) :
    formatVersion (vtup s) = normalizeSeg a ++ "." ++ normalizeSeg b
    ∧ (noLeadingZeros a = true → noLeadingZeros b = true →
        formatVersion (vtup s) = s) := by
  have hab : pyIsDigit a = true ∧ pyIsDigit b = true := by
    simp only [wellFormedVersion, Bool.and_eq_true] at hwf
    have h2 := hwf.2
    rw [hsplit] at h2
    simpa using h2
  have hda : ∀ c ∈ a.data, c.isDigit = true := by
    have h1 := hab.1
    simp only [pyIsDigit, Bool.and_eq_true, List.all_eq_true] at h1
    exact h1.2
  have hdb : ∀ c ∈ b.data, c.isDigit = true := by
    have h1 := hab.2
    simp only [pyIsDigit, Bool.and_eq_true, List.all_eq_true] at h1
    exact h1.2
  have hna : a.data ≠ [] := by
    have h1 := hab.1
    simp only [pyIsDigit, Bool.and_eq_true] at h1
    intro hcontra
    rw [hcontra] at h1
    simp at h1
  have hnb : b.data ≠ [] := by
    have h1 := hab.2
    simp only [pyIsDigit, Bool.and_eq_true] at h1
    intro hcontra
    rw [hcontra] at h1
    simp at h1
  have hv : vtup s = (parseNat a, parseNat b) := by
    unfold vtup
    rw [hsplit]
  have hfv : formatVersion (vtup s) = normalizeSeg a ++ "." ++ normalizeSeg b := by
    rw [hv]
    unfold formatVersion
    rw [show (parseNat a, parseNat b).1 = parseNat a from rfl,
      show (parseNat a, parseNat b).2 = parseNat b from rfl,
      parseNat_eq_valChars, parseNat_eq_valChars,
      reprNat_seg a hda, reprNat_seg b hdb]
  refine ⟨hfv, fun hla hlb => ?_⟩
  have hsa : normalizeSeg a = a := by
    unfold normalizeSeg
    rw [stripZeros_eq_self a.data hna hla]
  have hsb : normalizeSeg b = b := by
    unfold normalizeSeg
    rw [stripZeros_eq_self b.data hnb hlb]
  rw [hfv, hsa, hsb]
  apply string_eq_of_data
  rw [String.data_append, String.data_append, splitOnDot_pair s.data a.data b.data
    (pySplitDot_inv s a b hsplit)]
  simp

/-- Witness for C8: the round trip at `"7.6"` (canonical segments) is the
identity, and at `"07.60"` it yields the normalized `"7.60"`. -/
theorem parse_format_roundtrip_witness :
    formatVersion (vtup "7.6") = "7.6"
    ∧ formatVersion (vtup "07.60") = normalizeSeg "07" ++ "." ++ normalizeSeg "60" :=
  ⟨(parse_format_roundtrip "7.6" "7" "6" (by decide) (by decide)).2
      (by decide) (by decide),
   (parse_format_roundtrip "07.60" "07" "60" (by decide) (by decide)).1⟩

end VersionPy
